import Mathlib

/-!
# Movie catalog query layer (`src/api/index.js`)

A shallow embedding of the data lookup and query code of the Express
application in `src/api/index.js`, and the properties of it that the
specification states.

Modelling conventions.

* A JavaScript string is a Lean `String`; every string operation is carried
  out on its list of characters (`String.data`).
* `toUpperCase` / `toLowerCase` convert the ASCII letters and leave every
  other character unchanged, which is the runtime's conversion on ASCII
  texts; what is proved of a title search is stated for ASCII texts.
* A value that may be `undefined` or a text (a query parameter, the `Title`
  and `Metascore` properties of a record) is an `Option String`, `none`
  standing for `undefined`.
* A JavaScript number that holds an integer is an `Int`; its text is its
  decimal digits, which is the runtime's text up to magnitude `2^53`, and
  what is proved of numeric ids is stated within that range.
* A route handler is a function from the catalog and the request input to
  the `Response` it sends.
-/

set_option autoImplicit false

namespace MovieCatalog

/-! ## String primitives of the runtime -/

/-- The code points that `String.prototype.trim` and `parseInt` strip: the
ECMAScript `WhiteSpace` and `LineTerminator` productions. -/
def isWhiteSpace (c : Char) : Bool :=
  let n := c.toNat
  n == 0x09 || n == 0x0A || n == 0x0B || n == 0x0C || n == 0x0D || n == 0x20 ||
  n == 0xA0 || n == 0x1680 || (0x2000 ≤ n && n ≤ 0x200A) || n == 0x2028 ||
  n == 0x2029 || n == 0x202F || n == 0x205F || n == 0x3000 || n == 0xFEFF

/-- The characters of `s` without its leading white space. -/
def trimStart (s : List Char) : List Char :=
  s.dropWhile isWhiteSpace

/-- The characters of `s` without its trailing white space. -/
def trimEnd (s : List Char) : List Char :=
  (s.reverse.dropWhile isWhiteSpace).reverse

/-- `String.prototype.trim`: white space removed from both ends. -/
def trim (s : String) : String :=
  String.mk (trimEnd (trimStart s.data))

/-- `String.prototype.toUpperCase` as it acts on ASCII texts: the letters
`a-z` are converted, other characters are kept. -/
def toUpperCase (s : String) : String :=
  String.mk (s.data.map Char.toUpper)

/-- `String.prototype.toLowerCase` as it acts on ASCII texts (`isAscii`):
the letters `A-Z` are converted, other characters are kept. The case
mapping of the runtime on other characters is not modelled, and the
theorems on the matches of a title search are stated for ASCII titles and
queries. -/
def toLowerCase (s : String) : String :=
  String.mk (s.data.map Char.toLower)

/-- Substring test on character lists: `search` occurs in `s` at some
position. -/
def includesChars : List Char → List Char → Bool
  | [], search => search.isEmpty
  | c :: cs, search => search.isPrefixOf (c :: cs) || includesChars cs search

/-- `String.prototype.includes` (called with one argument). -/
def includes (s search : String) : Bool :=
  includesChars s.data search.data

/-! ## Handlebars block helpers -/

/-- The block a Handlebars block helper renders: `options.fn(this)` is the
main block, `options.inverse(this)` the `else` block. -/
inductive Block where
  | fn
  | inverse
  deriving DecidableEq, Repr

/-- Helper `hasMetascore` (lines 22-28):
`metascore && metascore.trim() !== '' && metascore.toUpperCase() !== 'N/A'`. -/
def hasMetascore (metascore : Option String) : Block :=
  match metascore with
  | none => Block.inverse
  | some m =>
    if m ≠ "" ∧ trim m ≠ "" ∧ toUpperCase m ≠ "N/A" then Block.fn
    else Block.inverse

/-- Helper `highlightIfNoMetascore` (lines 31-37):
`!metascore || metascore.trim() === '' || metascore.toUpperCase() === 'N/A'`. -/
def highlightIfNoMetascore (metascore : Option String) : Block :=
  match metascore with
  | none => Block.fn
  | some m =>
    if m = "" ∨ trim m = "" ∨ toUpperCase m = "N/A" then Block.fn
    else Block.inverse

/-! ## Values and records -/

/-- The values a `Movie_ID` property of a parsed record is modelled to hold.
`undefined` is a missing property. A `number` is an integer-valued number,
given by its exact value. -/
inductive JSValue where
  | undefined
  | null
  | bool (b : Bool)
  | number (n : Int)
  | string (s : String)
  deriving DecidableEq, Repr

/-- The conversion `String(value)`. A number is printed as its decimal
digits, which is the text the runtime gives for the integers of magnitude
at most `2^53` (`isSafeId`); beyond that range the runtime prints the
shortest digits that round-trip, and the theorems on numeric ids are stated
for catalogs within the range. -/
def jsString : JSValue → String
  | JSValue.undefined => "undefined"
  | JSValue.null => "null"
  | JSValue.bool true => "true"
  | JSValue.bool false => "false"
  | JSValue.number n => Int.repr n
  | JSValue.string s => s

/-- A request input that is absent or a text, as a value. -/
def ofQuery : Option String → JSValue
  | none => JSValue.undefined
  | some s => JSValue.string s

/-- One element of `movies`: an object of the snapshot. `Title` and
`Metascore` are texts or absent (`none`: the property is missing or `null`,
which the code treats alike); `other` holds the properties the query code
never reads. -/
structure MovieRecord where
  Title : Option String
  Movie_ID : JSValue
  Metascore : Option String
  other : List (String × JSValue)
  deriving DecidableEq, Repr

/-- What a route handler sends. The first three are `res.render` of the
views `movie`, `resultById` and `resultByTitle` with status 200; `error` is
`res.status(status).render('error', { title, message })`; `fault` is an
exception that escapes the handler. -/
inductive Response where
  | movie (title : Option String) (movie : MovieRecord)
  | resultById (movie : MovieRecord)
  | resultByTitle (results : List MovieRecord) (searchTitle : String)
  | error (status : Nat) (title : String) (message : String)
  | fault
  deriving DecidableEq, Repr

/-- The HTTP status of a response. -/
def Response.status : Response → Nat
  | Response.movie _ _ => 200
  | Response.resultById _ => 200
  | Response.resultByTitle _ _ => 200
  | Response.error status _ _ => status
  | Response.fault => 500

/-! ## Catalog load (lines 46-54) -/

/-- The startup load: `movies` starts as `[]`, and stays so when
`fs.readFileSync` or `JSON.parse` throws. The outcome of the read and the
parser of the runtime are arguments; a parse that succeeds yields an array
of records (a snapshot of another shape is not modelled). -/
def loadMovies {ε : Type} (readFileSync : Except ε String)
    (jsonParse : String → Except ε (List MovieRecord)) : List MovieRecord :=
  match readFileSync with
  | Except.error _ => []
  | Except.ok jsonData =>
    match jsonParse jsonData with
    | Except.error _ => []
    | Except.ok parsed => parsed

/-! ## `parseInt` -/

/-- The value of a character as a digit: `0-9`, then `a-z` or `A-Z` for
10 to 35. -/
def digitValue (c : Char) : Option Nat :=
  let n := c.toNat
  if 48 ≤ n ∧ n ≤ 57 then some (n - 48)
  else if 97 ≤ n ∧ n ≤ 122 then some (n - 87)
  else if 65 ≤ n ∧ n ≤ 90 then some (n - 55)
  else none

/-- Whether `c` is a digit of radix `R`. -/
def isRadixDigit (R : Nat) (c : Char) : Bool :=
  match digitValue c with
  | some d => decide (d < R)
  | none => false

/-- The integer that the digits `Z` denote in radix `R`. -/
def radixValue (R : Nat) (Z : List Char) : Nat :=
  Z.foldl (fun acc c => acc * R + (digitValue c).getD 0) 0

/-- The global `parseInt(string, radix)` on a string argument: leading white
space is skipped, one sign is read, and the longest run of radix digits that
follows is the result; `none` is `NaN`. The result is the exact integer: the
runtime rounds it to a double, which changes no integer below `2^53` and
keeps a larger one larger than every array length. -/
def parseInt (string : String) (radix : Nat) : Option Int :=
  let S := trimStart string.data
  let sign : Int := if S.head? = some '-' then -1 else 1
  let S := if S.head? = some '-' ∨ S.head? = some '+' then S.tail else S
  if radix ≠ 0 ∧ (radix < 2 ∨ 36 < radix) then none
  else
    let stripPrefix : Bool := radix = 0 ∨ radix = 16
    let R := if radix = 0 then 10 else radix
    let hex : Bool := stripPrefix && (S.take 2 == ['0', 'x'] || S.take 2 == ['0', 'X'])
    let S := if hex then S.drop 2 else S
    let R := if hex then 16 else R
    let Z := S.takeWhile (isRadixDigit R)
    if Z = [] then none else some (sign * (radixValue R Z : Int))

/-! ## Route handlers -/

/-- Route `GET /data/movie/:index` (lines 69-80). -/
def getByPosition (movies : List MovieRecord) (indexParam : String) : Response :=
  match parseInt indexParam 10 with
  | none => Response.error 404 "Error" "Movie not found"
  | some index =>
    if index < 0 ∨ index ≥ (movies.length : Int) then
      Response.error 404 "Error" "Movie not found"
    else
      match movies[index.toNat]? with
      | some movie => Response.movie movie.Title movie
      | none => Response.fault

/-- Route `GET /search/id/result` (lines 88-97). -/
def getById (movies : List MovieRecord) (movieId : Option String) : Response :=
  match movies.find? (fun m => jsString m.Movie_ID == jsString (ofQuery movieId)) with
  | some foundMovie => Response.resultById foundMovie
  | none =>
    Response.error 404 "Error"
      ("No movie found with ID \"" ++ jsString (ofQuery movieId) ++ "\"")

/-- The filter of lines 114-116:
`m.Title && m.Title.toLowerCase().includes(searchTitle.toLowerCase())`. -/
def titleMatches (movies : List MovieRecord) (searchTitle : String) : List MovieRecord :=
  movies.filter fun m =>
    match m.Title with
    | none => false
    | some t => t != "" && includes (toLowerCase t) (toLowerCase searchTitle)

/-- Route `GET /search/title/result` (lines 104-130). -/
def searchByTitle (movies : List MovieRecord) (searchTitle : Option String) : Response :=
  match searchTitle with
  | none => Response.error 400 "Error" "Movie title is required."
  | some q =>
    if q = "" then Response.error 400 "Error" "Movie title is required."
    else
      let results := titleMatches movies q
      if results.length > 0 then Response.resultByTitle results q
      else
        Response.error 404 "No Results"
          ("No movies found with title including \"" ++ q ++ "\".")

/-! ## The range in which the runtime's conversions are modelled -/

/-- Whether `jsString` is the runtime's `String` on the value: every value
but a number of magnitude above `2^53`. -/
def isSafeId : JSValue → Bool
  | JSValue.number n => decide (n.natAbs ≤ 2 ^ 53)
  | _ => true

/-- Whether every character of the text is an ASCII character. -/
def isAscii (s : String) : Bool :=
  s.data.all fun c => decide (c.toNat < 128)

/-- Whether the title of the record, when it has one, is an ASCII text. -/
def hasAsciiTitle (m : MovieRecord) : Bool :=
  match m.Title with
  | none => true
  | some t => isAscii t

/-- The query `q2` is the query `q` with the case of some letters changed:
character by character, it holds the character of `q`, its upper-case form
or its lower-case form. -/
def CaseVariant (q q2 : String) : Prop :=
  List.Forall₂ (fun a b => b = a ∨ b = a.toUpper ∨ b = a.toLower) q.data q2.data

/-! ## The matching rule of the specification, and a sample catalog -/

/-- The matching rule in the specification's words: the record has a title,
and the lowercased title contains the lowercased query as a substring. -/
def TitleContains (queryText : String) (m : MovieRecord) : Prop :=
  ∃ title, m.Title = some title ∧
    ∃ before after,
      (toLowerCase title).data = before ++ (toLowerCase queryText).data ++ after

/-- A record of the sample catalog. -/
def theMatrix : MovieRecord :=
  { Title := some "The Matrix", Movie_ID := JSValue.number 7, Metascore := some "73",
    other := [] }

/-- A record of the sample catalog. -/
def matrixReloaded : MovieRecord :=
  { Title := some "Matrix Reloaded", Movie_ID := JSValue.string "tt0234215",
    Metascore := some "N/A", other := [] }

/-- A record of the sample catalog. -/
def inception : MovieRecord :=
  { Title := some "Inception", Movie_ID := JSValue.number 7, Metascore := none,
    other := [] }

/-- The three titles of the specification's example, in its order. -/
def sampleMovies : List MovieRecord :=
  [theMatrix, matrixReloaded, inception]

/-! ## Lemmas on the string primitives -/

theorem string_mk_eq_empty (l : List Char) : String.mk l = "" ↔ l = [] := by
  constructor
  · intro h
    have := congrArg String.data h
    simpa using this
  · rintro rfl
    rfl

theorem trimEnd_trimStart_eq_nil (l : List Char) :
    trimEnd (trimStart l) = [] ↔ ∀ c ∈ l, isWhiteSpace c = true := by
  unfold trimEnd trimStart
  rw [List.reverse_eq_nil_iff, List.dropWhile_eq_nil_iff]
  constructor
  · intro h
    have hnil : l.dropWhile isWhiteSpace = [] := by
      by_contra hne
      have hhead := List.head_dropWhile_not isWhiteSpace l hne
      have hmem := List.head_mem hne
      have := h _ (List.mem_reverse.mpr hmem)
      simp [this] at hhead
    exact List.dropWhile_eq_nil_iff.mp hnil
  · intro h
    have hnil : l.dropWhile isWhiteSpace = [] := List.dropWhile_eq_nil_iff.mpr h
    simp [hnil]

/-- `trim` yields the empty text exactly on a text of white space only. -/
theorem trim_eq_empty_iff (m : String) :
    trim m = "" ↔ ∀ c ∈ m.data, isWhiteSpace c = true := by
  unfold trim
  rw [string_mk_eq_empty, trimEnd_trimStart_eq_nil]

theorem toUpper_of_not_lower (c : Char) (h : ¬ (97 ≤ c.toNat ∧ c.toNat ≤ 122)) :
    c.toUpper = c := by
  simp only [Char.toUpper]
  rw [if_neg]
  simpa using h

theorem toUpper_eq_N (c : Char) : c.toUpper = 'N' ↔ c = 'N' ∨ c = 'n' := by
  by_cases h : 97 ≤ c.toNat ∧ c.toNat ≤ 122
  · obtain ⟨h1, h2⟩ := h
    have hc : c = Char.ofNat c.toNat := (Char.ofNat_toNat c).symm
    generalize c.toNat = n at hc h1 h2
    subst hc
    interval_cases n <;> decide
  · rw [toUpper_of_not_lower c h]
    constructor
    · exact Or.inl
    · rintro (h1 | h1)
      · exact h1
      · subst h1
        exact absurd (by decide) h

theorem toUpper_eq_A (c : Char) : c.toUpper = 'A' ↔ c = 'A' ∨ c = 'a' := by
  by_cases h : 97 ≤ c.toNat ∧ c.toNat ≤ 122
  · obtain ⟨h1, h2⟩ := h
    have hc : c = Char.ofNat c.toNat := (Char.ofNat_toNat c).symm
    generalize c.toNat = n at hc h1 h2
    subst hc
    interval_cases n <;> decide
  · rw [toUpper_of_not_lower c h]
    constructor
    · exact Or.inl
    · rintro (h1 | h1)
      · exact h1
      · subst h1
        exact absurd (by decide) h

theorem toUpper_eq_slash (c : Char) : c.toUpper = '/' ↔ c = '/' := by
  by_cases h : 97 ≤ c.toNat ∧ c.toNat ≤ 122
  · obtain ⟨h1, h2⟩ := h
    have hc : c = Char.ofNat c.toNat := (Char.ofNat_toNat c).symm
    generalize c.toNat = n at hc h1 h2
    subst hc
    interval_cases n <;> decide
  · rw [toUpper_of_not_lower c h]

/-- The texts whose upper-case form is `N/A` are the four spellings of
`n/a`. -/
theorem toUpperCase_eq_NA (m : String) :
    toUpperCase m = "N/A" ↔ m = "N/A" ∨ m = "n/a" ∨ m = "N/a" ∨ m = "n/A" := by
  constructor
  · intro h
    have hd : m.data.map Char.toUpper = ['N', '/', 'A'] := by
      have := congrArg String.data h
      simpa [toUpperCase] using this
    obtain ⟨l⟩ := m
    simp only at hd
    match l, hd with
    | [a, b, c], hd =>
      simp only [List.map_cons, List.map_nil, List.cons.injEq, and_true] at hd
      obtain ⟨ha, hb, hc⟩ := hd
      rw [toUpper_eq_N] at ha
      rw [toUpper_eq_slash] at hb
      rw [toUpper_eq_A] at hc
      subst hb
      rcases ha with rfl | rfl <;> rcases hc with rfl | rfl <;> decide
    | [], hd => simp at hd
    | [_], hd => simp at hd
    | [_, _], hd => simp at hd
    | _ :: _ :: _ :: _ :: _, hd => simp at hd
  · rintro (rfl | rfl | rfl | rfl) <;> decide

/-- A text whose upper-case form is `N/A` has no white space at its ends. -/
theorem trim_eq_self_of_NA (m : String) (h : toUpperCase m = "N/A") : trim m = m := by
  rcases (toUpperCase_eq_NA m).mp h with rfl | rfl | rfl | rfl <;> decide

theorem toLower_of_not_upper (c : Char) (h : ¬ (65 ≤ c.toNat ∧ c.toNat ≤ 90)) :
    c.toLower = c := by
  simp only [Char.toLower]
  rw [if_neg]
  simpa using h

theorem toLower_toUpper (c : Char) : c.toUpper.toLower = c.toLower := by
  by_cases h : 97 ≤ c.toNat ∧ c.toNat ≤ 122
  · obtain ⟨h1, h2⟩ := h
    have hc : c = Char.ofNat c.toNat := (Char.ofNat_toNat c).symm
    generalize c.toNat = n at hc h1 h2
    subst hc
    interval_cases n <;> decide
  · rw [toUpper_of_not_lower c h]

theorem toLower_toLower (c : Char) : c.toLower.toLower = c.toLower := by
  by_cases h : 65 ≤ c.toNat ∧ c.toNat ≤ 90
  · obtain ⟨h1, h2⟩ := h
    have hc : c = Char.ofNat c.toNat := (Char.ofNat_toNat c).symm
    generalize c.toNat = n at hc h1 h2
    subst hc
    interval_cases n <;> decide
  · rw [toLower_of_not_upper c h, toLower_of_not_upper c h]

theorem map_toLower_of_variant (l l2 : List Char)
    (h : List.Forall₂ (fun a b => b = a ∨ b = a.toUpper ∨ b = a.toLower) l l2) :
    l2.map Char.toLower = l.map Char.toLower := by
  induction h with
  | nil => rfl
  | cons hab _ ih =>
    simp only [List.map_cons, ih, List.cons.injEq, and_true]
    rcases hab with rfl | rfl | rfl
    · rfl
    · exact toLower_toUpper _
    · exact toLower_toLower _

/-- A query and one of its case variants have the same lower-case form. -/
theorem toLowerCase_of_caseVariant (q q2 : String) (h : CaseVariant q q2) :
    toLowerCase q2 = toLowerCase q :=
  congrArg String.mk (map_toLower_of_variant q.data q2.data h)

theorem toLowerCase_toUpperCase (q : String) : toLowerCase (toUpperCase q) = toLowerCase q := by
  unfold toLowerCase toUpperCase
  congr 1
  simp only [List.map_map]
  exact List.map_congr_left fun c _ => toLower_toUpper c

/-! ## Lemmas on `parseInt` -/

theorem isDigit_iff (c : Char) : c.isDigit = true ↔ 48 ≤ c.toNat ∧ c.toNat ≤ 57 := by
  simp [Char.isDigit, Char.toNat, UInt32.le_def, BitVec.le_def, UInt32.toNat]

theorem isRadixDigit_ten (c : Char) : isRadixDigit 10 c = c.isDigit := by
  rw [Bool.eq_iff_iff, isDigit_iff]
  simp only [isRadixDigit, digitValue]
  split_ifs with h1 h2 h3 <;> simp <;> omega

theorem not_whiteSpace_of_isDigit (c : Char) (h : c.isDigit = true) :
    isWhiteSpace c = false := by
  rw [isDigit_iff] at h
  simp only [isWhiteSpace, Bool.or_eq_false_iff, Bool.and_eq_false_iff, beq_eq_false_iff_ne,
    decide_eq_false_iff_not]
  omega

theorem dropWhile_append_of_all {p : Char → Bool} (ws l : List Char)
    (h : ∀ c ∈ ws, p c = true) : (ws ++ l).dropWhile p = l.dropWhile p := by
  induction ws with
  | nil => rfl
  | cons a ws ih =>
    have ha : p a = true := h a (List.mem_cons_self a ws)
    rw [List.cons_append, List.dropWhile_cons, if_pos ha]
    exact ih fun c hc => h c (List.mem_cons_of_mem a hc)

theorem takeWhile_append_of_all {p : Char → Bool} (ds rest : List Char)
    (h : ∀ c ∈ ds, p c = true) (hrest : ∀ c, rest.head? = some c → p c = false) :
    (ds ++ rest).takeWhile p = ds := by
  induction ds with
  | nil =>
    cases rest with
    | nil => rfl
    | cons b rest =>
      have hb : p b = false := hrest b rfl
      simp [List.takeWhile_cons, hb]
  | cons a ds ih =>
    have ha : p a = true := h a (List.mem_cons_self a ds)
    rw [List.cons_append, List.takeWhile_cons, if_pos ha]
    rw [ih fun c hc => h c (List.mem_cons_of_mem a hc)]

/-- The definition of `parseInt` at radix 10. -/
theorem parseInt_ten (s : String) :
    parseInt s 10 =
      if ((if (trimStart s.data).head? = some '-' ∨ (trimStart s.data).head? = some '+'
            then (trimStart s.data).tail else trimStart s.data).takeWhile Char.isDigit) = []
      then none
      else some ((if (trimStart s.data).head? = some '-' then -1 else 1) *
        (radixValue 10
          ((if (trimStart s.data).head? = some '-' ∨ (trimStart s.data).head? = some '+'
            then (trimStart s.data).tail else trimStart s.data).takeWhile Char.isDigit) : Int)) := by
  have hfun : isRadixDigit 10 = Char.isDigit := funext isRadixDigit_ten
  simp [parseInt, hfun]

/-- On optional white space, a run of decimal digits and a rest that does
not go on with a digit, `parseInt` at radix 10 is the number the run
denotes. -/
theorem parseInt_run (ws digits rest : List Char)
    (hws : ∀ c ∈ ws, isWhiteSpace c = true)
    (hne : digits ≠ [])
    (hdigits : ∀ c ∈ digits, c.isDigit = true)
    (hrest : ∀ c, rest.head? = some c → c.isDigit = false) :
    parseInt (String.mk (ws ++ digits ++ rest)) 10 = some (radixValue 10 digits : Int) := by
  obtain ⟨d, ds, rfl⟩ := List.exists_cons_of_ne_nil hne
  have hd : d.isDigit = true := hdigits d (List.mem_cons_self d ds)
  have htrim : trimStart (ws ++ (d :: ds) ++ rest) = d :: ds ++ rest := by
    unfold trimStart
    rw [List.append_assoc, dropWhile_append_of_all ws _ hws, List.cons_append,
      List.dropWhile_cons, not_whiteSpace_of_isDigit d hd]
    simp
  have hminus : d ≠ '-' := by
    rintro rfl
    exact absurd hd (by decide)
  have hplus : d ≠ '+' := by
    rintro rfl
    exact absurd hd (by decide)
  rw [parseInt_ten]
  simp only [htrim, List.cons_append, List.head?_cons, Option.some.injEq, hminus, hplus,
    or_self, if_false]
  rw [← List.cons_append, takeWhile_append_of_all (d :: ds) rest hdigits hrest]
  simp

/-! ## Lemmas on `String(value)` -/

theorem digitChar_isDigit (k : Nat) (h : k < 10) : (Nat.digitChar k).isDigit = true := by
  interval_cases k <;> decide

theorem toDigitsCore_chars (fuel : Nat) :
    ∀ (n : Nat) (ds : List Char), ∀ c ∈ Nat.toDigitsCore 10 fuel n ds,
      c ∈ ds ∨ c.isDigit = true := by
  induction fuel with
  | zero =>
    intro n ds c hc
    simp only [Nat.toDigitsCore] at hc
    exact Or.inl hc
  | succ fuel ih =>
    intro n ds c hc
    have hdig : (Nat.digitChar (n % 10)).isDigit = true :=
      digitChar_isDigit _ (Nat.mod_lt _ (by decide))
    simp only [Nat.toDigitsCore] at hc
    split_ifs at hc with h0
    · rcases List.mem_cons.mp hc with rfl | hc
      · exact Or.inr hdig
      · exact Or.inl hc
    · rcases ih _ _ c hc with hc | hc
      · rcases List.mem_cons.mp hc with rfl | hc
        · exact Or.inr hdig
        · exact Or.inl hc
      · exact Or.inr hc

theorem natRepr_chars (n : Nat) : ∀ c ∈ (Nat.repr n).data, c.isDigit = true := by
  intro c hc
  have hc2 : c ∈ Nat.toDigitsCore 10 (n + 1) n [] := by
    simpa [Nat.repr, Nat.toDigits, List.asString] using hc
  rcases toDigitsCore_chars (n + 1) n [] c hc2 with h | h
  · cases h
  · exact h

/-- The decimal text of an integer holds digits and the minus sign only. -/
theorem intRepr_chars (n : Int) : ∀ c ∈ (Int.repr n).data, c.isDigit = true ∨ c = '-' := by
  intro c hc
  cases n with
  | ofNat m => exact Or.inl (natRepr_chars m c hc)
  | negSucc m =>
    simp only [Int.repr, String.data_append] at hc
    rcases List.mem_append.mp hc with h | h
    · right
      simpa using h
    · exact Or.inl (natRepr_chars _ c h)

/-- The values whose text is `undefined`: the missing property and the text
`undefined` itself. -/
theorem jsString_eq_undefined (v : JSValue) :
    jsString v = "undefined" ↔ v = JSValue.undefined ∨ v = JSValue.string "undefined" := by
  constructor
  · intro h
    cases v with
    | undefined => exact Or.inl rfl
    | null => exact absurd h (by decide)
    | bool b => cases b <;> exact absurd h (by decide)
    | number n =>
      exfalso
      have hu : 'u' ∈ (Int.repr n).data := by
        have : (Int.repr n).data = "undefined".data := congrArg String.data h
        rw [this]
        decide
      rcases intRepr_chars n 'u' hu with h1 | h1
      · exact absurd h1 (by decide)
      · exact absurd h1 (by decide)
    | string s => exact Or.inr (congrArg JSValue.string h)
  · rintro (rfl | rfl) <;> rfl

/-! ## The display helpers -/

/-- C5. For a metascore that is absent or a text, `hasMetascore` renders its
inverse block exactly when the value is absent, empty, made of white space
only, or one of the spellings of `N/A` in upper or lower case; it renders
its main block for every other text, whatever its characters; and the
truth table of the specification holds. -/
theorem hasMetascore_branch (metascore : Option String) :
    (hasMetascore metascore = Block.inverse ↔
      metascore = none ∨ ∃ m, metascore = some m ∧
        (m = "" ∨ (∀ c ∈ m.data, isWhiteSpace c = true) ∨
          m = "N/A" ∨ m = "n/a" ∨ m = "N/a" ∨ m = "n/A")) ∧
    (hasMetascore metascore = Block.fn ↔
      ∃ m, metascore = some m ∧ m ≠ "" ∧ (¬ ∀ c ∈ m.data, isWhiteSpace c = true) ∧
        ¬ (m = "N/A" ∨ m = "n/a" ∨ m = "N/a" ∨ m = "n/A")) ∧
    hasMetascore none = Block.inverse ∧
    hasMetascore (some "") = Block.inverse ∧
    hasMetascore (some "   ") = Block.inverse ∧
    hasMetascore (some "N/A") = Block.inverse ∧
    hasMetascore (some "n/a") = Block.inverse ∧
    hasMetascore (some "75") = Block.fn := by
  refine ⟨?_, ?_, by decide, by decide, by decide, by decide, by decide, by decide⟩
  · cases metascore with
    | none => simp [hasMetascore]
    | some m =>
      simp only [hasMetascore, ne_eq, trim_eq_empty_iff, toUpperCase_eq_NA,
        Option.some.injEq, exists_eq_left', reduceCtorEq, false_or]
      split_ifs with hc <;> simp only [reduceCtorEq, false_iff, true_iff] <;> tauto
  · cases metascore with
    | none => simp [hasMetascore]
    | some m =>
      simp only [hasMetascore, ne_eq, trim_eq_empty_iff, toUpperCase_eq_NA,
        Option.some.injEq, exists_eq_left', reduceCtorEq, false_or]
      split_ifs with hc <;> simp only [reduceCtorEq, false_iff, true_iff] <;> tauto

/-- C7. The two helpers branch on one condition with opposite sense:
`highlightIfNoMetascore` renders its main block exactly when `hasMetascore`
renders its inverse block, and its inverse block exactly when `hasMetascore`
renders its main block; no metascore makes both render the main block, and
none makes both render the inverse block. -/
theorem highlight_iff_not_hasMetascore (metascore : Option String) :
    (highlightIfNoMetascore metascore = Block.fn ↔ hasMetascore metascore = Block.inverse) ∧
    (highlightIfNoMetascore metascore = Block.inverse ↔ hasMetascore metascore = Block.fn) ∧
    ¬ (highlightIfNoMetascore metascore = Block.fn ∧ hasMetascore metascore = Block.fn) ∧
    ¬ (highlightIfNoMetascore metascore = Block.inverse ∧
        hasMetascore metascore = Block.inverse) := by
  cases metascore with
  | none => simp [hasMetascore, highlightIfNoMetascore]
  | some m =>
    simp only [hasMetascore, highlightIfNoMetascore]
    by_cases h1 : m = "" <;> by_cases h2 : trim m = "" <;>
      by_cases h3 : toUpperCase m = "N/A" <;> simp [h1, h2, h3]

/-- C6, as the code has it: a text that equals `N/A` after trimming, case
ignored, makes `hasMetascore` render its inverse block and
`highlightIfNoMetascore` its main block exactly when the text has no white
space at its ends; with white space at an end both helpers treat it as a
score. -/
theorem na_only_untrimmed (m : String) (h : toUpperCase (trim m) = "N/A") :
    (hasMetascore (some m) = Block.inverse ↔ trim m = m) ∧
    (highlightIfNoMetascore (some m) = Block.fn ↔ trim m = m) := by
  have hne : trim m ≠ "" := by
    intro h0
    rw [h0] at h
    exact absurd h (by decide)
  have hm : m ≠ "" := by
    rintro rfl
    exact hne (by decide)
  have key : toUpperCase m = "N/A" ↔ trim m = m := by
    constructor
    · exact trim_eq_self_of_NA m
    · intro ht
      rw [ht] at h
      exact h
  simp only [hasMetascore, highlightIfNoMetascore]
  by_cases h3 : toUpperCase m = "N/A"
  · simp [hm, hne, h3, key.mp h3]
  · have : ¬ trim m = m := fun ht => h3 (key.mpr ht)
    simp [hm, hne, h3, this]

/-- The text ` N/A ` equals `N/A` after trimming and is not its own trim. -/
theorem na_only_untrimmed_witness :
    toUpperCase (trim " N/A ") = "N/A" ∧
    ((hasMetascore (some " N/A ") = Block.inverse ↔ trim " N/A " = " N/A ") ∧
     (highlightIfNoMetascore (some " N/A ") = Block.fn ↔ trim " N/A " = " N/A ")) :=
  ⟨by decide, na_only_untrimmed " N/A " (by decide)⟩

/-- C6, as stated, fails: ` N/A ` and `n/a` followed by two blanks equal
`N/A` after trimming, case ignored, and both helpers treat them as a
score. -/
theorem na_with_blanks_has_score :
    toUpperCase (trim " N/A ") = "N/A" ∧
    hasMetascore (some " N/A ") = Block.fn ∧
    highlightIfNoMetascore (some " N/A ") = Block.inverse ∧
    toUpperCase (trim "n/a  ") = "N/A" ∧
    hasMetascore (some "n/a  ") = Block.fn ∧
    highlightIfNoMetascore (some "n/a  ") = Block.inverse := by
  decide

/-! ## Lookup by position -/

/-- C1. `getByPosition` answers with the record at position `i` whenever the
index text parses, in base 10, to an integer `i` with `0 ≤ i` below the
catalog length; for every other index text (one that does not parse, or
parses to a negative or too large integer) it answers 404 `Movie not found`,
a response that carries no record; it never faults. -/
theorem getByPosition_spec (movies : List MovieRecord) (indexParam : String) :
    (∀ (i : Nat) (h : i < movies.length), parseInt indexParam 10 = some (i : Int) →
      getByPosition movies indexParam =
        Response.movie (movies.get ⟨i, h⟩).Title (movies.get ⟨i, h⟩)) ∧
    ((¬ ∃ i : Nat, i < movies.length ∧ parseInt indexParam 10 = some (i : Int)) →
      getByPosition movies indexParam = Response.error 404 "Error" "Movie not found") ∧
    (parseInt indexParam 10 = none →
      getByPosition movies indexParam = Response.error 404 "Error" "Movie not found") ∧
    (∀ k : Int, parseInt indexParam 10 = some k → (k < 0 ∨ (movies.length : Int) ≤ k) →
      getByPosition movies indexParam = Response.error 404 "Error" "Movie not found") ∧
    getByPosition movies indexParam ≠ Response.fault ∧
    getByPosition sampleMovies "2" = Response.movie (some "Inception") inception ∧
    getByPosition sampleMovies "abc" = Response.error 404 "Error" "Movie not found" ∧
    getByPosition sampleMovies "-1" = Response.error 404 "Error" "Movie not found" ∧
    getByPosition sampleMovies "3" = Response.error 404 "Error" "Movie not found" := by
  have hbad : ∀ k : Int, parseInt indexParam 10 = some k →
      (k < 0 ∨ (movies.length : Int) ≤ k) →
      getByPosition movies indexParam = Response.error 404 "Error" "Movie not found" := by
    intro k hk hr
    unfold getByPosition
    rw [hk]
    simp only [ge_iff_le]
    rw [if_pos hr]
  have hgood : ∀ (i : Nat) (h : i < movies.length), parseInt indexParam 10 = some (i : Int) →
      getByPosition movies indexParam =
        Response.movie (movies.get ⟨i, h⟩).Title (movies.get ⟨i, h⟩) := by
    intro i h hp
    unfold getByPosition
    rw [hp]
    simp only [ge_iff_le]
    rw [if_neg (by omega), Int.toNat_ofNat, List.getElem?_eq_getElem h]
    rfl
  have hnone : parseInt indexParam 10 = none →
      getByPosition movies indexParam = Response.error 404 "Error" "Movie not found" := by
    intro hp
    unfold getByPosition
    rw [hp]
  refine ⟨hgood, ?_, hnone, hbad, ?_, by decide, by decide, by decide, by decide⟩
  · intro hno
    cases hp : parseInt indexParam 10 with
    | none => exact hnone hp
    | some k =>
      by_cases hr : k < 0 ∨ (movies.length : Int) ≤ k
      · exact hbad k hp hr
      · exfalso
        apply hno
        refine ⟨k.toNat, by omega, ?_⟩
        rw [hp, Int.toNat_of_nonneg (by omega)]
  · cases hp : parseInt indexParam 10 with
    | none => rw [hnone hp]; exact Response.noConfusion
    | some k =>
      by_cases hr : k < 0 ∨ (movies.length : Int) ≤ k
      · rw [hbad k hp hr]; exact Response.noConfusion
      · have hk : k = ((k.toNat : Nat) : Int) := (Int.toNat_of_nonneg (by omega)).symm
        have hlt : k.toNat < movies.length := by omega
        rw [hk] at hp
        rw [hgood k.toNat hlt hp]
        exact Response.noConfusion

/-- C9. The index is read as a base-10 run at the start of the text, not as
a whole text: on optional leading white space, then a run of decimal digits
that denotes `i` below the catalog length, then any rest (the rest starts
where the run ends, so not with a digit), `getByPosition` answers with the
record at position `i`. -/
theorem getByPosition_reads_leading_run (movies : List MovieRecord)
    (ws digits rest : List Char)
    (hws : ∀ c ∈ ws, isWhiteSpace c = true)
    (hne : digits ≠ [])
    (hdigits : ∀ c ∈ digits, c.isDigit = true)
    (hrest : ∀ c, rest.head? = some c → c.isDigit = false)
    (hlt : radixValue 10 digits < movies.length) :
    getByPosition movies (String.mk (ws ++ digits ++ rest)) =
      Response.movie (movies.get ⟨radixValue 10 digits, hlt⟩).Title
        (movies.get ⟨radixValue 10 digits, hlt⟩) := by
  have hp := parseInt_run ws digits rest hws hne hdigits hrest
  unfold getByPosition
  rw [hp]
  simp only [ge_iff_le]
  rw [if_neg (by omega), Int.toNat_ofNat, List.getElem?_eq_getElem hlt]
  rfl

/-- The texts `1abc` and `1.9` select the record at position 1 of the sample
catalog, and ` 02 records` the one at position 2. -/
theorem getByPosition_reads_leading_run_witness :
    getByPosition sampleMovies "1abc" =
      Response.movie (some "Matrix Reloaded") matrixReloaded ∧
    getByPosition sampleMovies "1.9" =
      Response.movie (some "Matrix Reloaded") matrixReloaded ∧
    getByPosition sampleMovies " 02 records" = Response.movie (some "Inception") inception :=
  ⟨getByPosition_reads_leading_run sampleMovies [] ['1'] ['a', 'b', 'c']
      (by decide) (by decide) (by decide)
      (fun c h => by cases h; decide) (by decide),
    getByPosition_reads_leading_run sampleMovies [] ['1'] ['.', '9']
      (by decide) (by decide) (by decide)
      (fun c h => by cases h; decide) (by decide),
    getByPosition_reads_leading_run sampleMovies [' '] ['0', '2'] " records".data
      (by decide) (by decide) (by decide)
      (fun c h => by cases h; decide) (by decide)⟩

/-! ## Lookup by identifier -/

theorem getById_found_iff (movies : List MovieRecord) (movieId : Option String)
    (m : MovieRecord) :
    getById movies movieId = Response.resultById m ↔
      ∃ before after, movies = before ++ m :: after ∧
        jsString m.Movie_ID = jsString (ofQuery movieId) ∧
        ∀ x ∈ before, jsString x.Movie_ID ≠ jsString (ofQuery movieId) := by
  unfold getById
  cases hf : movies.find? (fun m => jsString m.Movie_ID == jsString (ofQuery movieId)) with
  | none =>
    simp only [reduceCtorEq, false_iff]
    rintro ⟨before, after, rfl, hm, -⟩
    rw [List.find?_eq_none] at hf
    exact hf m (by simp) (by simpa using hm)
  | some found =>
    simp only [Response.resultById.injEq]
    rw [List.find?_eq_some] at hf
    constructor
    · rintro rfl
      obtain ⟨hp, before, after, hsplit, hbefore⟩ := hf
      refine ⟨before, after, hsplit, by simpa using hp, ?_⟩
      intro x hx
      simpa using hbefore x hx
    · rintro ⟨before, after, hsplit, hm, hbefore⟩
      have hm2 : movies.find? (fun m => jsString m.Movie_ID == jsString (ofQuery movieId))
          = some m := by
        rw [List.find?_eq_some]
        refine ⟨by simpa using hm, before, after, hsplit, ?_⟩
        intro x hx
        simpa using hbefore x hx
      have hf2 : movies.find? (fun m => jsString m.Movie_ID == jsString (ofQuery movieId))
          = some found := List.find?_eq_some.mpr hf
      rw [hm2] at hf2
      exact (Option.some.inj hf2).symm

theorem getById_notFound_iff (movies : List MovieRecord) (movieId : Option String) :
    (getById movies movieId).status = 404 ↔
      ∀ x ∈ movies, jsString x.Movie_ID ≠ jsString (ofQuery movieId) := by
  unfold getById
  cases hf : movies.find? (fun m => jsString m.Movie_ID == jsString (ofQuery movieId)) with
  | none =>
    rw [List.find?_eq_none] at hf
    simp only [Response.status, true_iff]
    intro x hx
    simpa using hf x hx
  | some found =>
    have hmem := List.mem_of_find?_eq_some hf
    have hp := List.find?_some hf
    simp only [Response.status]
    constructor
    · intro h
      exact absurd h (by decide)
    · intro hall
      exact absurd (by simpa using hp) (hall found hmem)

theorem getById_status_404_iff_error (movies : List MovieRecord) (movieId : Option String) :
    (getById movies movieId).status = 404 ↔
      getById movies movieId =
        Response.error 404 "Error"
          ("No movie found with ID \"" ++ jsString (ofQuery movieId) ++ "\"") := by
  unfold getById
  cases movies.find? (fun m => jsString m.Movie_ID == jsString (ofQuery movieId)) with
  | none => simp [Response.status]
  | some found => simp [Response.status]

/-- C2. On a catalog whose numeric ids are integers of magnitude at most
`2^53` (the range in which the text of a number is its decimal digits),
`getById` answers with the first record, in catalog order, whose `Movie_ID`
as a text equals the query id as a text, character by character; it answers
404 exactly when no record has that id text. So the id text of a record of
the catalog is always found, and yields the first record with that id text.
In the sample catalog the number `7` is found by the text `7`, the first of
the two records that share it wins, and `07`, a text of other case and a
part of an id text find nothing. -/
theorem getById_spec (movies : List MovieRecord) (movieId : Option String)
    (_hsafe : ∀ m ∈ movies, isSafeId m.Movie_ID = true) :
    (∀ m, getById movies movieId = Response.resultById m ↔
      ∃ before after, movies = before ++ m :: after ∧
        jsString m.Movie_ID = jsString (ofQuery movieId) ∧
        ∀ x ∈ before, jsString x.Movie_ID ≠ jsString (ofQuery movieId)) ∧
    (getById movies movieId =
        Response.error 404 "Error"
          ("No movie found with ID \"" ++ jsString (ofQuery movieId) ++ "\"") ↔
      ∀ x ∈ movies, jsString x.Movie_ID ≠ jsString (ofQuery movieId)) ∧
    ((getById movies movieId).status = 404 ↔
      ∀ x ∈ movies, jsString x.Movie_ID ≠ jsString (ofQuery movieId)) ∧
    (∀ r ∈ movies, (getById movies (some (jsString r.Movie_ID))).status ≠ 404 ∧
      ∃ m before after,
        getById movies (some (jsString r.Movie_ID)) = Response.resultById m ∧
        movies = before ++ m :: after ∧
        jsString m.Movie_ID = jsString r.Movie_ID ∧
        ∀ x ∈ before, jsString x.Movie_ID ≠ jsString r.Movie_ID) ∧
    getById sampleMovies (some "7") = Response.resultById theMatrix ∧
    getById sampleMovies (some "tt0234215") = Response.resultById matrixReloaded ∧
    (getById sampleMovies (some "07")).status = 404 ∧
    (getById sampleMovies (some "TT0234215")).status = 404 ∧
    (getById sampleMovies (some "tt02")).status = 404 := by
  refine ⟨getById_found_iff movies movieId, ?_, getById_notFound_iff movies movieId, ?_,
    by decide, by decide, by decide, by decide, by decide⟩
  · rw [← getById_status_404_iff_error]
    exact getById_notFound_iff movies movieId
  · intro r hr
    have hnot : ¬ (getById movies (some (jsString r.Movie_ID))).status = 404 := by
      rw [getById_notFound_iff]
      intro hall
      exact hall r hr rfl
    refine ⟨hnot, ?_⟩
    cases hg : getById movies (some (jsString r.Movie_ID)) with
    | resultById m =>
      obtain ⟨before, after, h1, h2, h3⟩ := (getById_found_iff movies _ m).mp hg
      exact ⟨m, before, after, rfl, h1, h2, h3⟩
    | movie t m =>
      exfalso
      unfold getById at hg
      split at hg <;> cases hg
    | resultByTitle rs q =>
      exfalso
      unfold getById at hg
      split at hg <;> cases hg
    | error st t msg =>
      exfalso
      rw [hg] at hnot
      unfold getById at hg
      split at hg
      · cases hg
      · injection hg with h1 h2 h3
        exact hnot h1.symm
    | fault =>
      exfalso
      unfold getById at hg
      split at hg <;> cases hg

/-- On the sample catalog, whose numeric ids are within range, the text `7`
finds the first of the two records with the id `7`, and `07` finds none. -/
theorem getById_spec_witness :
    (∀ m ∈ sampleMovies, isSafeId m.Movie_ID = true) ∧
    getById sampleMovies (some "7") = Response.resultById theMatrix ∧
    (getById sampleMovies (some "07")).status = 404 :=
  ⟨by decide,
    ((getById_spec sampleMovies (some "7") (by decide)).1 theMatrix).mpr
      ⟨[], [matrixReloaded, inception], rfl, rfl, by simp⟩,
    (getById_spec sampleMovies (some "07") (by decide)).2.2.1.mpr (by decide)⟩

/-- C10. An absent query id is not turned away: it is compared as the text
`undefined`. The answer is the first record, in catalog order, whose
`Movie_ID` is missing or is the text `undefined`, and it is 404 only when
every record has a `Movie_ID` and none has the text `undefined`. -/
theorem getById_absent_id (movies : List MovieRecord) :
    getById movies none = getById movies (some "undefined") ∧
    (∀ m, getById movies none = Response.resultById m ↔
      ∃ before after, movies = before ++ m :: after ∧
        (m.Movie_ID = JSValue.undefined ∨ m.Movie_ID = JSValue.string "undefined") ∧
        ∀ x ∈ before,
          x.Movie_ID ≠ JSValue.undefined ∧ x.Movie_ID ≠ JSValue.string "undefined") ∧
    ((getById movies none).status = 404 ↔
      ∀ x ∈ movies,
        x.Movie_ID ≠ JSValue.undefined ∧ jsString x.Movie_ID ≠ "undefined") ∧
    getById [inception, { theMatrix with Movie_ID := JSValue.undefined }] none =
      Response.resultById { theMatrix with Movie_ID := JSValue.undefined } ∧
    getById sampleMovies none =
      Response.error 404 "Error" "No movie found with ID \"undefined\"" := by
  refine ⟨rfl, ?_, ?_, by decide, by decide⟩
  · intro m
    rw [getById_found_iff]
    have hq : jsString (ofQuery none) = "undefined" := rfl
    simp only [hq, jsString_eq_undefined, ne_eq, not_or]
  · rw [getById_notFound_iff]
    have hq : jsString (ofQuery none) = "undefined" := rfl
    simp only [hq]
    constructor
    · intro h x hx
      refine ⟨?_, h x hx⟩
      rintro hu
      exact h x hx (by rw [hu]; rfl)
    · intro h x hx
      exact (h x hx).2

/-! ## Search by title -/

/-- `includesChars` is the substring relation. -/
theorem includesChars_iff (s search : List Char) :
    includesChars s search = true ↔ ∃ before after, s = before ++ search ++ after := by
  induction s with
  | nil =>
    simp only [includesChars, List.isEmpty_iff]
    constructor
    · rintro rfl
      exact ⟨[], [], rfl⟩
    · rintro ⟨before, after, h⟩
      have h2 := congrArg List.length h
      simp only [List.length_nil, List.length_append] at h2
      exact List.eq_nil_of_length_eq_zero (by omega)
  | cons c cs ih =>
    simp only [includesChars, Bool.or_eq_true, ih, List.isPrefixOf_iff_prefix]
    constructor
    · rintro (⟨after, h⟩ | ⟨before, after, h⟩)
      · exact ⟨[], after, by simpa using h.symm⟩
      · exact ⟨c :: before, after, by simp [h]⟩
    · rintro ⟨before, after, h⟩
      cases before with
      | nil => exact Or.inl ⟨after, by simpa using h.symm⟩
      | cons b before =>
        right
        simp only [List.cons_append, List.cons.injEq] at h
        exact ⟨before, after, h.2⟩

theorem toLowerCase_data_eq_nil (q : String) : (toLowerCase q).data = [] ↔ q = "" := by
  simp only [toLowerCase, List.map_eq_nil_iff]
  constructor
  · intro h
    exact String.ext h
  · rintro rfl
    rfl

/-- For a query that is not empty, the test of the filter is the matching
rule of the specification. -/
theorem title_test_iff (q : String) (hq : q ≠ "") (m : MovieRecord) :
    (match m.Title with
      | none => false
      | some t => t != "" && includes (toLowerCase t) (toLowerCase q)) = true ↔
      TitleContains q m := by
  unfold TitleContains
  cases hT : m.Title with
  | none => simp
  | some t =>
    simp only [Bool.and_eq_true, bne_iff_ne, ne_eq, includes, includesChars_iff,
      Option.some.injEq, exists_eq_left']
    constructor
    · exact fun h => h.2
    · rintro ⟨before, after, h⟩
      refine ⟨?_, before, after, h⟩
      rintro rfl
      have h2 := congrArg List.length h
      have h3 : (toLowerCase "").data = [] := rfl
      rw [h3] at h2
      simp only [List.length_nil, List.length_append] at h2
      have h4 : (toLowerCase q).data = [] := List.eq_nil_of_length_eq_zero (by omega)
      exact hq ((toLowerCase_data_eq_nil q).mp h4)

/-- C3. On ASCII texts (the query and the titles of the catalog, where the
case conversion is the runtime's): for a query `q` that is not empty, the
matches of `searchByTitle` are the catalog filtered by the matching rule
(title present, lowercased title contains lowercased `q`), so in catalog
order with nothing moved or repeated; the response carries that list, or is
the 404 of zero matches; the matches are the same for `q` with the case of
any of its letters changed, for `q` in upper case, and for every query with
the lowercase form of `q`; and on the sample titles `The Matrix`,
`Matrix Reloaded`, `Inception` the query `matrix`, in any case, yields the
first two in that order. -/
theorem searchByTitle_spec (movies : List MovieRecord) (q : String) (hq : q ≠ "")
    (_hquery : isAscii q = true) (_htitles : ∀ m ∈ movies, hasAsciiTitle m = true) :
    (∃ test : MovieRecord → Bool, (∀ m, test m = true ↔ TitleContains q m) ∧
      titleMatches movies q = movies.filter test) ∧
    (titleMatches movies q).Sublist movies ∧
    (∀ m, m ∈ titleMatches movies q ↔ m ∈ movies ∧ TitleContains q m) ∧
    searchByTitle movies (some q) =
      (if titleMatches movies q = [] then
        Response.error 404 "No Results"
          ("No movies found with title including \"" ++ q ++ "\".")
      else Response.resultByTitle (titleMatches movies q) q) ∧
    (∀ q2 : String, CaseVariant q q2 →
      titleMatches movies q2 = titleMatches movies q) ∧
    titleMatches movies (toUpperCase q) = titleMatches movies q ∧
    (∀ q2 : String, toLowerCase q2 = toLowerCase q →
      titleMatches movies q2 = titleMatches movies q) ∧
    (titleMatches sampleMovies "matrix").map MovieRecord.Title =
      [some "The Matrix", some "Matrix Reloaded"] ∧
    titleMatches sampleMovies "MATRIX" = titleMatches sampleMovies "matrix" ∧
    titleMatches sampleMovies "MaTriX" = titleMatches sampleMovies "matrix" := by
  have hsame : ∀ q2 : String, toLowerCase q2 = toLowerCase q →
      titleMatches movies q2 = titleMatches movies q := by
    intro q2 h
    unfold titleMatches
    rw [h]
  refine ⟨⟨_, title_test_iff q hq, rfl⟩, List.filter_sublist movies, ?_, ?_,
    fun q2 h => hsame q2 (toLowerCase_of_caseVariant q q2 h),
    hsame _ (toLowerCase_toUpperCase q), hsame,
    by decide, by decide, by decide⟩
  · intro m
    unfold titleMatches
    rw [List.mem_filter, title_test_iff q hq]
  · unfold searchByTitle
    simp only [hq, if_false]
    by_cases h : titleMatches movies q = []
    · simp [h]
    · have hpos : (titleMatches movies q).length > 0 := List.length_pos.mpr h
      simp [h, hpos]

/-- The query `matrix` on the sample catalog, and the same query with the
case of three letters changed. -/
theorem searchByTitle_spec_witness :
    "matrix" ≠ "" ∧ isAscii "matrix" = true ∧
    (∀ m ∈ sampleMovies, hasAsciiTitle m = true) ∧
    searchByTitle sampleMovies (some "matrix") =
      Response.resultByTitle [theMatrix, matrixReloaded] "matrix" ∧
    titleMatches sampleMovies "MaTriX" = titleMatches sampleMovies "matrix" :=
  ⟨by decide, by decide, by decide,
    ((searchByTitle_spec sampleMovies "matrix" (by decide) (by decide)
      (by decide)).2.2.2.1.trans (by decide)),
    (searchByTitle_spec sampleMovies "matrix" (by decide) (by decide)
      (by decide)).2.2.2.2.1 "MaTriX"
      (by
        unfold CaseVariant
        refine List.Forall₂.cons (Or.inr (Or.inl (by decide))) ?_
        refine List.Forall₂.cons (Or.inl rfl) ?_
        refine List.Forall₂.cons (Or.inr (Or.inl (by decide))) ?_
        refine List.Forall₂.cons (Or.inl rfl) ?_
        refine List.Forall₂.cons (Or.inl rfl) ?_
        refine List.Forall₂.cons (Or.inr (Or.inl (by decide))) ?_
        exact List.Forall₂.nil)⟩

/-- C4. `searchByTitle` answers 400 `Movie title is required.` exactly when
the query is absent or empty, whatever the catalog: such a query yields
neither a match list nor the 404 of zero matches, and a query that is not
empty, a blank one included, never yields the 400; a match list is never
empty. -/
theorem searchByTitle_invalid_iff (movies : List MovieRecord) (searchTitle : Option String) :
    (searchByTitle movies searchTitle =
        Response.error 400 "Error" "Movie title is required." ↔
      searchTitle = none ∨ searchTitle = some "") ∧
    ((searchByTitle movies searchTitle).status = 400 ↔
      searchTitle = none ∨ searchTitle = some "") ∧
    ((searchTitle = none ∨ searchTitle = some "") →
      (searchByTitle movies searchTitle).status ≠ 404 ∧
      ∀ results q, searchByTitle movies searchTitle ≠ Response.resultByTitle results q) ∧
    (∀ q, searchTitle = some q → q ≠ "" →
      (searchByTitle movies searchTitle).status = 200 ∨
      (searchByTitle movies searchTitle).status = 404) ∧
    (∀ results q, searchByTitle movies searchTitle = Response.resultByTitle results q →
      results ≠ []) ∧
    (searchByTitle movies (some " ")).status ≠ 400 ∧
    searchByTitle movies searchTitle ≠ Response.fault := by
  have hblank : (searchByTitle movies (some " ")).status ≠ 400 := by
    unfold searchByTitle
    have h1 : ¬ (" " : String) = "" := by decide
    simp only [h1, if_false]
    split_ifs <;> simp [Response.status]
  cases searchTitle with
  | none =>
    refine ⟨by simp [searchByTitle], by simp [searchByTitle, Response.status],
      fun _ => ⟨by simp [searchByTitle, Response.status], by simp [searchByTitle]⟩,
      by simp, by simp [searchByTitle], hblank, by simp [searchByTitle]⟩
  | some q =>
    by_cases hq : q = ""
    · subst hq
      refine ⟨by simp [searchByTitle], by simp [searchByTitle, Response.status],
        fun _ => ⟨by simp [searchByTitle, Response.status], by simp [searchByTitle]⟩,
        by simp, by simp [searchByTitle], hblank, by simp [searchByTitle]⟩
    · by_cases h : (titleMatches movies q).length > 0
      · have hne : titleMatches movies q ≠ [] := List.length_pos.mp h
        refine ⟨by simp [searchByTitle, hq, h], by simp [searchByTitle, hq, h, Response.status],
          fun hc => by simp [hq] at hc,
          fun _ _ _ => by simp [searchByTitle, hq, h, Response.status],
          ?_, hblank, by simp [searchByTitle, hq, h]⟩
        intro results q2 hres
        simp only [searchByTitle, hq, if_false, h, if_true, Response.resultByTitle.injEq] at hres
        rw [← hres.1]
        exact hne
      · refine ⟨by simp [searchByTitle, hq, h], by simp [searchByTitle, hq, h, Response.status],
          fun hc => by simp [hq] at hc,
          fun _ _ _ => by simp [searchByTitle, hq, h, Response.status],
          by simp [searchByTitle, hq, h], hblank, by simp [searchByTitle, hq, h]⟩

/-! ## Load failure -/

/-- C8. When reading the snapshot or parsing it throws, the load yields the
empty catalog and no fault; over that catalog every query is a normal
negative answer: `getByPosition` answers 404 for every index text, `getById`
answers 404 for every query id, present or absent, and `searchByTitle`
answers 400 for an absent or empty query and the 404 of zero matches for
every other query. -/
theorem load_failure_serves_empty {ε : Type} (readFileSync : Except ε String)
    (jsonParse : String → Except ε (List MovieRecord))
    (hfail : (∃ e, readFileSync = Except.error e) ∨
      ∃ jsonData e, readFileSync = Except.ok jsonData ∧ jsonParse jsonData = Except.error e) :
    loadMovies readFileSync jsonParse = [] ∧
    (loadMovies readFileSync jsonParse).length = 0 ∧
    (∀ indexParam, getByPosition (loadMovies readFileSync jsonParse) indexParam =
      Response.error 404 "Error" "Movie not found") ∧
    (∀ movieId, getById (loadMovies readFileSync jsonParse) movieId =
      Response.error 404 "Error"
        ("No movie found with ID \"" ++ jsString (ofQuery movieId) ++ "\"")) ∧
    searchByTitle (loadMovies readFileSync jsonParse) none =
      Response.error 400 "Error" "Movie title is required." ∧
    searchByTitle (loadMovies readFileSync jsonParse) (some "") =
      Response.error 400 "Error" "Movie title is required." ∧
    (∀ q, q ≠ "" → searchByTitle (loadMovies readFileSync jsonParse) (some q) =
      Response.error 404 "No Results"
        ("No movies found with title including \"" ++ q ++ "\".")) := by
  have hload : loadMovies readFileSync jsonParse = [] := by
    unfold loadMovies
    rcases hfail with ⟨e, rfl⟩ | ⟨jsonData, e, rfl, h2⟩
    · rfl
    · simp only [h2]
  rw [hload]
  refine ⟨rfl, rfl, ?_, ?_, rfl, rfl, ?_⟩
  · intro indexParam
    unfold getByPosition
    cases parseInt indexParam 10 with
    | none => rfl
    | some k =>
      simp only [List.length_nil, Nat.cast_zero, ge_iff_le]
      rw [if_pos (by omega)]
  · intro movieId
    rfl
  · intro q hq
    simp [searchByTitle, hq, titleMatches]

/-- A read that throws, and a parse that throws on a truncated snapshot. -/
theorem load_failure_serves_empty_witness :
    loadMovies (Except.error "ENOENT" : Except String String)
        (fun _ => Except.error "Unexpected token") = [] ∧
    loadMovies (Except.ok "[ 1, " : Except String String)
        (fun _ => Except.error "Unexpected end of JSON input") = [] :=
  ⟨(load_failure_serves_empty (Except.error "ENOENT")
      (fun _ => Except.error "Unexpected token") (Or.inl ⟨_, rfl⟩)).1,
    (load_failure_serves_empty (Except.ok "[ 1, ")
      (fun _ => Except.error "Unexpected end of JSON input")
      (Or.inr ⟨_, _, rfl, rfl⟩)).1⟩

end MovieCatalog
